import Mathlib

/-!
Verification of the process-browser core (proc.c, sort.c, main.c) against its
natural-language specification.

The C sources are shallowly embedded: C strings become `List Char`, machine
integers become `Nat`/`Int` with explicit wrap-around (`% 2^32`, `% 2^64`)
where the C arithmetic can overflow, the `float cpu_usage` field becomes `ℚ`
(only its sign and ordering matter to the properties below), and the
`/proc`-filesystem reads performed by `proc_list_update` become an explicit
environment record passed to the function.
-/

/-! ## Data model (proc.h) -/

/-- MAX_PROCESSES from proc.h: bound on the snapshot size. -/
def MAX_PROCESSES : Nat := 2048

/-- `proc_info_t` from proc.h.  `pid` is a C `int`, `memory` a C `long`
(RSS in kilobytes), `cpu_usage` a C `float` modelled as `ℚ`. -/
structure proc_info_t where
  pid : Int
  name : List Char
  user : List Char
  memory : Int
  cpu_usage : ℚ
deriving DecidableEq

/-! ## Case-insensitive matching (strcasestr / strcasecmp, ASCII) -/

/-- ASCII `tolower` on a byte value, as used by `strcasestr`/`strcasecmp`
in the C locale: bytes 65..90 (A-Z) map to 97..122 (a-z), all else fixed. -/
def tolower_byte (n : Nat) : Nat := if 65 ≤ n ∧ n ≤ 90 then n + 32 else n

/-- A character list viewed as its sequence of lower-cased byte values. -/
def lower_bytes (s : List Char) : List Nat :=
  s.map (fun c => tolower_byte c.toNat)

/-- `strcasestr(name, filter_str) != NULL` (proc.c line 316): `filter_str`
occurs in `name` as a case-insensitive (ASCII) substring. -/
def name_matches (name filter_str : List Char) : Bool :=
  decide (lower_bytes filter_str <:+: lower_bytes name)

/-! ## proc_list_filter (proc.c lines 303-321) -/

/-- The copy loop of `proc_list_filter` (proc.c lines 310-320): walk the
source in order, appending to the destination each entry whose name
matches the filter string. -/
def proc_list_filter_go (filter_str : List Char) :
    List proc_info_t → List proc_info_t
  | [] => []
  | p :: rest =>
    if name_matches p.name filter_str
    then p :: proc_list_filter_go filter_str rest
    else proc_list_filter_go filter_str rest

/-- `proc_list_filter` (proc.c lines 303-321).  A NULL or empty filter
string copies the whole source list (`*dest = *src`); otherwise the
destination receives, in source order, the entries whose name contains
the filter string case-insensitively. -/
def proc_list_filter (src : List proc_info_t) (filter_str : List Char) :
    List proc_info_t :=
  if filter_str.length = 0 then src
  else proc_list_filter_go filter_str src

theorem proc_list_filter_go_eq_filter (fs : List Char) (l : List proc_info_t) :
    proc_list_filter_go fs l = l.filter (fun p => name_matches p.name fs) := by
  induction l with
  | nil => rfl
  | cons p rest ih =>
    by_cases h : name_matches p.name fs = true
    · simp [proc_list_filter_go, List.filter, h, ih]
    · simp [proc_list_filter_go, List.filter, h, ih]

/-- C4: for every snapshot and filter text, an empty text returns the
source unchanged (content and order); a non-empty text returns, in
original relative order (a sublist of the source), exactly those samples
whose name contains the text as a case-insensitive ASCII substring:
members of the result pass the containment test, members of the source
failing the test are not in the result, members passing it are, and the
result is never longer than the source.  The embedding is pure, so the
source snapshot is not mutated. -/
theorem claim_C4_filter_correct (src : List proc_info_t) (fs : List Char) :
    (fs = [] → proc_list_filter src fs = src) ∧
    (fs ≠ [] →
      (proc_list_filter src fs).Sublist src ∧
      (∀ p, p ∈ proc_list_filter src fs → name_matches p.name fs = true) ∧
      (∀ p, p ∈ src → name_matches p.name fs = false →
        p ∉ proc_list_filter src fs) ∧
      (∀ p, p ∈ src → name_matches p.name fs = true →
        p ∈ proc_list_filter src fs) ∧
      (proc_list_filter src fs).length ≤ src.length) := by
  constructor
  · intro h
    simp [proc_list_filter, h]
  · intro h
    have hlen : ¬ fs.length = 0 := by
      simpa [List.length_eq_zero] using h
    have hrw : proc_list_filter src fs
        = src.filter (fun p => name_matches p.name fs) := by
      simp [proc_list_filter, hlen, proc_list_filter_go_eq_filter]
    refine ⟨?_, ?_, ?_, ?_, ?_⟩
    · rw [hrw]; exact List.filter_sublist src
    · intro p hp
      rw [hrw] at hp
      exact (List.mem_filter.mp hp).2
    · intro p _ hfail hp
      rw [hrw] at hp
      have := (List.mem_filter.mp hp).2
      rw [hfail] at this
      exact Bool.false_ne_true this
    · intro p hp hpass
      rw [hrw]
      exact List.mem_filter.mpr ⟨hp, hpass⟩
    · rw [hrw]
      exact List.length_filter_le _ _

/-- Witness for C4 at a concrete input: filtering the snapshot
[systemd, bash] with the upper-case text "SYS" keeps exactly systemd. -/
theorem claim_C4_witness :
    (['S','Y','S'] : List Char) ≠ [] ∧
    (∀ p, p ∈ proc_list_filter
        [⟨1, ['s','y','s','t','e','m','d'], [], 0, 0⟩,
         ⟨2, ['b','a','s','h'], [], 0, 0⟩] ['S','Y','S'] →
      name_matches p.name ['S','Y','S'] = true) :=
  ⟨by decide,
    ((claim_C4_filter_correct
      [⟨1, ['s','y','s','t','e','m','d'], [], 0, 0⟩,
       ⟨2, ['b','a','s','h'], [], 0, 0⟩] ['S','Y','S']).2
      (by decide)).2.1⟩

/-! ## strcasecmp (sort.c compare_name, ASCII, C-string semantics) -/

/-- Structural core of `strcasecmp`: compare lower-cased byte values
position by position; at the first difference return their difference;
when one list ends first, compare the terminating NUL byte (0) against
the other list's next byte. -/
def strcasecmp_aux : List Char → List Char → Int
  | [], [] => 0
  | [], y :: _ => 0 - (tolower_byte y.toNat : Int)
  | x :: _, [] => (tolower_byte x.toNat : Int)
  | x :: xs, y :: ys =>
    if tolower_byte x.toNat = tolower_byte y.toNat then strcasecmp_aux xs ys
    else (tolower_byte x.toNat : Int) - (tolower_byte y.toNat : Int)

/-- A C string is its characters up to the first NUL byte. -/
def cstr (s : List Char) : List Char := s.takeWhile (fun c => decide (c.toNat ≠ 0))

/-- `strcasecmp` from sort.c's `compare_name`: case-insensitive byte
comparison of the two names as C strings. -/
def strcasecmp (a b : List Char) : Int := strcasecmp_aux (cstr a) (cstr b)

theorem tolower_byte_eq_zero {n : Nat} (h : tolower_byte n = 0) : n = 0 := by
  unfold tolower_byte at h
  split at h <;> omega

theorem strcasecmp_aux_antisymm (a b : List Char) :
    strcasecmp_aux b a = - strcasecmp_aux a b := by
  induction a generalizing b with
  | nil =>
    cases b with
    | nil => simp [strcasecmp_aux]
    | cons y ys => simp [strcasecmp_aux]
  | cons x xs ih =>
    cases b with
    | nil => simp [strcasecmp_aux]
    | cons y ys =>
      by_cases h : tolower_byte x.toNat = tolower_byte y.toNat
      · simp [strcasecmp_aux, h, ih ys]
      · have hne : tolower_byte y.toNat ≠ tolower_byte x.toNat := fun hh => h hh.symm
        simp [strcasecmp_aux, h, hne]

theorem strcasecmp_aux_total (a b : List Char) :
    strcasecmp_aux a b ≤ 0 ∨ strcasecmp_aux b a ≤ 0 := by
  have h := strcasecmp_aux_antisymm a b
  omega

/-- Transitivity of the `strcasecmp ≤ 0` order on NUL-free character
lists (the image of `cstr`). -/
theorem strcasecmp_aux_trans (a b c : List Char)
    (ha : ∀ ch ∈ a, ch.toNat ≠ 0) (hb : ∀ ch ∈ b, ch.toNat ≠ 0)
    (hab : strcasecmp_aux a b ≤ 0) (hbc : strcasecmp_aux b c ≤ 0) :
    strcasecmp_aux a c ≤ 0 := by
  induction a generalizing b c with
  | nil =>
    cases c with
    | nil => simp [strcasecmp_aux]
    | cons z zs =>
      have : (0 : Int) ≤ (tolower_byte z.toNat : Int) := Int.natCast_nonneg _
      simp [strcasecmp_aux]
  | cons x xs ih =>
    cases b with
    | nil =>
      exfalso
      have hx : (tolower_byte x.toNat : Int) ≤ 0 := by
        simpa [strcasecmp_aux] using hab
      have hx0 : tolower_byte x.toNat = 0 := by omega
      exact ha x (by simp) (tolower_byte_eq_zero hx0)
    | cons y ys =>
      cases c with
      | nil =>
        exfalso
        have hy : (tolower_byte y.toNat : Int) ≤ 0 := by
          simpa [strcasecmp_aux] using hbc
        have hy0 : tolower_byte y.toNat = 0 := by omega
        exact hb y (by simp) (tolower_byte_eq_zero hy0)
      | cons z zs =>
        by_cases hxy : tolower_byte x.toNat = tolower_byte y.toNat
        · by_cases hyz : tolower_byte y.toNat = tolower_byte z.toNat
          · have hxz : tolower_byte x.toNat = tolower_byte z.toNat := hxy.trans hyz
            rw [strcasecmp_aux] at hab hbc ⊢
            rw [if_pos hxy] at hab
            rw [if_pos hyz] at hbc
            rw [if_pos hxz]
            exact ih ys zs (fun ch h => ha ch (List.mem_cons_of_mem _ h))
              (fun ch h => hb ch (List.mem_cons_of_mem _ h)) hab hbc
          · have hlt : (tolower_byte y.toNat : Int) < tolower_byte z.toNat := by
              rw [strcasecmp_aux, if_neg hyz] at hbc
              have : (tolower_byte y.toNat : Int) ≠ tolower_byte z.toNat := by
                exact_mod_cast hyz
              omega
            have hxz : tolower_byte x.toNat ≠ tolower_byte z.toNat := by
              intro hh
              rw [hxy] at hh
              exact hyz hh
            rw [strcasecmp_aux, if_neg hxz]
            have : (tolower_byte x.toNat : Int) = tolower_byte y.toNat := by
              exact_mod_cast hxy
            omega
        · have hlt : (tolower_byte x.toNat : Int) < tolower_byte y.toNat := by
            rw [strcasecmp_aux, if_neg hxy] at hab
            have : (tolower_byte x.toNat : Int) ≠ tolower_byte y.toNat := by
              exact_mod_cast hxy
            omega
          by_cases hyz : tolower_byte y.toNat = tolower_byte z.toNat
          · have hyz' : (tolower_byte y.toNat : Int) = tolower_byte z.toNat := by
              exact_mod_cast hyz
            have hxz : tolower_byte x.toNat ≠ tolower_byte z.toNat := by
              intro hh
              have : (tolower_byte x.toNat : Int) = tolower_byte z.toNat := by
                exact_mod_cast hh
              omega
            rw [strcasecmp_aux, if_neg hxz]
            omega
          · have hlt2 : (tolower_byte y.toNat : Int) < tolower_byte z.toNat := by
              rw [strcasecmp_aux, if_neg hyz] at hbc
              have : (tolower_byte y.toNat : Int) ≠ tolower_byte z.toNat := by
                exact_mod_cast hyz
              omega
            have hxz : tolower_byte x.toNat ≠ tolower_byte z.toNat := by
              intro hh
              have : (tolower_byte x.toNat : Int) = tolower_byte z.toNat := by
                exact_mod_cast hh
              omega
            rw [strcasecmp_aux, if_neg hxz]
            omega

theorem cstr_no_nul (s : List Char) : ∀ ch ∈ cstr s, ch.toNat ≠ 0 := by
  intro ch hch
  have := List.mem_takeWhile_imp hch
  simpa using this

theorem strcasecmp_trans {a b c : List Char}
    (hab : strcasecmp a b ≤ 0) (hbc : strcasecmp b c ≤ 0) :
    strcasecmp a c ≤ 0 :=
  strcasecmp_aux_trans (cstr a) (cstr b) (cstr c)
    (cstr_no_nul a) (cstr_no_nul b) hab hbc

theorem strcasecmp_total (a b : List Char) :
    strcasecmp a b ≤ 0 ∨ strcasecmp b a ≤ 0 :=
  strcasecmp_aux_total (cstr a) (cstr b)

/-! ## Comparators and sort_processes (sort.c) -/

/-- Sort keys from sort.h. -/
inductive SortType where
  | SORT_PID
  | SORT_NAME
  | SORT_MEM
  | SORT_CPU
deriving DecidableEq

/-- `compare_pid` (sort.c line 18): ascending PID via subtraction,
modelled here as exact integer subtraction.  `compare_pid_c` below
models the C `int` wrap-around of the same subtraction. -/
def compare_pid (a b : proc_info_t) : Int := a.pid - b.pid

/-- Two's-complement wrap of an integer to the C `int` (32-bit) range. -/
def int32_wrap (n : Int) : Int := (n + 2 ^ 31) % 2 ^ 32 - 2 ^ 31

/-- `compare_pid` as actually computed by the CPU: the subtraction
`pa->pid - pb->pid` wraps modulo 2^32 in C `int` arithmetic. -/
def compare_pid_c (pa pb : Int) : Int := int32_wrap (pa - pb)

/-- `compare_mem` (sort.c line 33): descending memory, branch-based
(no subtraction, hence no overflow). -/
def compare_mem (a b : proc_info_t) : Int :=
  if a.memory < b.memory then 1
  else if b.memory < a.memory then -1
  else 0

/-- `compare_name` (sort.c line 54): `strcasecmp` on the names. -/
def compare_name (a b : proc_info_t) : Int := strcasecmp a.name b.name

/-- `compare_cpu` (sort.c line 67): descending CPU usage, branch-based. -/
def compare_cpu (a b : proc_info_t) : Int :=
  if a.cpu_usage < b.cpu_usage then 1
  else if b.cpu_usage < a.cpu_usage then -1
  else 0

/-- `sort_processes` (sort.c lines 86-107): qsort with the comparator
selected by the sort key.  qsort is modelled by `List.mergeSort` under
the order "comparator result ≤ 0"; any qsort-compliant output is a
permutation ordered this way. -/
def sort_processes (l : List proc_info_t) : SortType → List proc_info_t
  | SortType.SORT_PID => l.mergeSort (fun a b => decide (compare_pid a b ≤ 0))
  | SortType.SORT_NAME => l.mergeSort (fun a b => decide (compare_name a b ≤ 0))
  | SortType.SORT_MEM => l.mergeSort (fun a b => decide (compare_mem a b ≤ 0))
  | SortType.SORT_CPU => l.mergeSort (fun a b => decide (compare_cpu a b ≤ 0))

theorem le_pid_trans (a b c : proc_info_t)
    (h1 : decide (compare_pid a b ≤ 0) = true)
    (h2 : decide (compare_pid b c ≤ 0) = true) :
    decide (compare_pid a c ≤ 0) = true := by
  simp only [decide_eq_true_eq, compare_pid] at h1 h2 ⊢
  omega

theorem le_pid_total (a b : proc_info_t) :
    (decide (compare_pid a b ≤ 0) || decide (compare_pid b a ≤ 0)) = true := by
  simp only [Bool.or_eq_true, decide_eq_true_eq, compare_pid]
  omega

theorem le_name_trans (a b c : proc_info_t)
    (h1 : decide (compare_name a b ≤ 0) = true)
    (h2 : decide (compare_name b c ≤ 0) = true) :
    decide (compare_name a c ≤ 0) = true := by
  simp only [decide_eq_true_eq, compare_name] at h1 h2 ⊢
  exact strcasecmp_trans h1 h2

theorem le_name_total (a b : proc_info_t) :
    (decide (compare_name a b ≤ 0) || decide (compare_name b a ≤ 0)) = true := by
  simp only [Bool.or_eq_true, decide_eq_true_eq, compare_name]
  exact strcasecmp_total a.name b.name

theorem compare_mem_le_iff (a b : proc_info_t) :
    compare_mem a b ≤ 0 ↔ b.memory ≤ a.memory := by
  unfold compare_mem
  split_ifs <;> omega

theorem le_mem_trans (a b c : proc_info_t)
    (h1 : decide (compare_mem a b ≤ 0) = true)
    (h2 : decide (compare_mem b c ≤ 0) = true) :
    decide (compare_mem a c ≤ 0) = true := by
  simp only [decide_eq_true_eq, compare_mem_le_iff] at h1 h2 ⊢
  omega

theorem le_mem_total (a b : proc_info_t) :
    (decide (compare_mem a b ≤ 0) || decide (compare_mem b a ≤ 0)) = true := by
  simp only [Bool.or_eq_true, decide_eq_true_eq, compare_mem_le_iff]
  omega

theorem compare_cpu_le_iff (a b : proc_info_t) :
    compare_cpu a b ≤ 0 ↔ b.cpu_usage ≤ a.cpu_usage := by
  unfold compare_cpu
  split_ifs with h1 h2
  · constructor
    · intro h; norm_num at h
    · intro h; linarith
  · constructor
    · intro _; linarith
    · intro _; norm_num
  · constructor
    · intro _; linarith
    · intro _; norm_num

theorem le_cpu_trans (a b c : proc_info_t)
    (h1 : decide (compare_cpu a b ≤ 0) = true)
    (h2 : decide (compare_cpu b c ≤ 0) = true) :
    decide (compare_cpu a c ≤ 0) = true := by
  simp only [decide_eq_true_eq, compare_cpu_le_iff] at h1 h2 ⊢
  linarith

theorem le_cpu_total (a b : proc_info_t) :
    (decide (compare_cpu a b ≤ 0) || decide (compare_cpu b a ≤ 0)) = true := by
  simp only [Bool.or_eq_true, decide_eq_true_eq, compare_cpu_le_iff]
  exact le_total b.cpu_usage a.cpu_usage

/-- C5: for every snapshot and sort key, `sort_processes` returns a
permutation of its input (no entry lost or duplicated), and the output
is monotone under the key's rule: ascending PID for SORT_PID, ascending
case-insensitive name (strcasecmp ≤ 0) for SORT_NAME, descending memory
for SORT_MEM, descending CPU percentage for SORT_CPU.  Moreover the PID
comparator's `int` subtraction does not overflow for legal PID values
(0 ≤ pid ≤ 2^22, the Linux PID_MAX_LIMIT): the wrapped C result
`compare_pid_c` equals the exact difference there.  The memory and CPU
comparators are branch-based and involve no arithmetic at all. -/
theorem claim_C5_sort_correct (l : List proc_info_t) :
    (∀ k, (sort_processes l k).Perm l) ∧
    (sort_processes l SortType.SORT_PID).Pairwise
      (fun a b => a.pid ≤ b.pid) ∧
    (sort_processes l SortType.SORT_NAME).Pairwise
      (fun a b => strcasecmp a.name b.name ≤ 0) ∧
    (sort_processes l SortType.SORT_MEM).Pairwise
      (fun a b => b.memory ≤ a.memory) ∧
    (sort_processes l SortType.SORT_CPU).Pairwise
      (fun a b => b.cpu_usage ≤ a.cpu_usage) ∧
    (∀ pa pb : Int, 0 ≤ pa → pa ≤ 2 ^ 22 → 0 ≤ pb → pb ≤ 2 ^ 22 →
      compare_pid_c pa pb = pa - pb) := by
  refine ⟨?_, ?_, ?_, ?_, ?_, ?_⟩
  · intro k
    cases k <;> exact List.mergeSort_perm l _
  · have h := List.sorted_mergeSort le_pid_trans le_pid_total l
    exact h.imp (by
      intro a b hab
      simp only [decide_eq_true_eq, compare_pid] at hab
      omega)
  · have h := List.sorted_mergeSort le_name_trans le_name_total l
    exact h.imp (by
      intro a b hab
      simpa only [decide_eq_true_eq, compare_name] using hab)
  · have h := List.sorted_mergeSort le_mem_trans le_mem_total l
    exact h.imp (by
      intro a b hab
      simpa only [decide_eq_true_eq, compare_mem_le_iff] using hab)
  · have h := List.sorted_mergeSort le_cpu_trans le_cpu_total l
    exact h.imp (by
      intro a b hab
      simpa only [decide_eq_true_eq, compare_cpu_le_iff] using hab)
  · intro pa pb h1 h2 h3 h4
    unfold compare_pid_c int32_wrap
    omega

/-- Witness for C5 at a concrete input: the permutation fact at the
snapshot with PIDs [100, 10, 50], and no overflow in the PID comparator
at the legal pair (100, 10). -/
theorem claim_C5_witness :
    (sort_processes
      [⟨100, [], [], 0, 0⟩, ⟨10, [], [], 0, 0⟩, ⟨50, [], [], 0, 0⟩]
      SortType.SORT_PID).Perm
      [⟨100, [], [], 0, 0⟩, ⟨10, [], [], 0, 0⟩, ⟨50, [], [], 0, 0⟩] ∧
    compare_pid_c 100 10 = 90 :=
  ⟨(claim_C5_sort_correct
      [⟨100, [], [], 0, 0⟩, ⟨10, [], [], 0, 0⟩, ⟨50, [], [], 0, 0⟩]).1
      SortType.SORT_PID,
   by
    have h := (claim_C5_sort_correct []).2.2.2.2.2 100 10
      (by norm_num) (by norm_num) (by norm_num) (by norm_num)
    rw [h]
    norm_num⟩

/-! ## proc_list_update (proc.c lines 209-291) -/

/-- The /proc reads done during one call of `proc_list_update`,
made explicit.  `sys_readable` is false when /proc/stat cannot be
opened or fewer than four aggregate fields parse, in which case
`get_system_time` returns 0 (proc.c lines 111-134); `dir_ok` is
`opendir("/proc") != NULL`; `entries` are the numeric directory
entries in readdir order; the remaining maps give the per-PID reads
(each already degraded to its default on a read failure, as the
helpers in proc.c do). -/
structure UpdateEnv where
  sys_readable : Bool
  sys_ticks : Nat
  dir_ok : Bool
  entries : List Nat
  proc_time : Nat → Nat
  proc_name : Nat → List Char
  proc_user : Nat → List Char
  proc_memory : Nat → Int
  num_cores : Int

/-- The mutable state surrounding `proc_list_update`: the static
`cpu_history` array (indices below 131072), the static
`prev_system_time`, and the caller's `proc_list_t`. -/
structure ProcState where
  history : Nat → Nat
  prev_system_time : Nat
  plist : List proc_info_t

/-- `get_system_time` (proc.c lines 111-134): the summed aggregate
ticks, or 0 when /proc/stat is unreadable or parses fewer than four
fields. -/
def get_system_time (env : UpdateEnv) : Nat :=
  if env.sys_readable then env.sys_ticks else 0

/-- Unsigned 64-bit subtraction as C computes `a - b` on
`unsigned long long` operands (both below 2^64): wraps modulo 2^64. -/
def usub64 (a b : Nat) : Nat := (a % 2 ^ 64 + (2 ^ 64 - b % 2 ^ 64)) % 2 ^ 64

/-- The `system_delta` computation (proc.c lines 215-219): 0 unless a
previous system time exists (`prev_system_time > 0`), else the wrapped
unsigned difference. -/
def system_delta_of (prev cur : Nat) : Nat :=
  if prev > 0 then usub64 cur prev else 0

/-- The `proc_delta` computation for one PID with an in-bounds history
slot (proc.c lines 262-266): `current - history` only when a nonzero
history entry exists and current is not below it; 0 otherwise. -/
def proc_delta_of (histEntry cur : Nat) : Nat :=
  if histEntry > 0 ∧ cur ≥ histEntry then cur - histEntry else 0

/-- The percentage computation (proc.c lines 272-282):
`(proc_delta / system_delta) * 100 * num_cores` when the system delta
is positive, else 0.0.  The C `float` arithmetic is modelled in `ℚ`. -/
def cpu_percent_of (proc_delta system_delta : Nat) (num_cores : Int) : ℚ :=
  if system_delta > 0
  then (proc_delta : ℚ) / (system_delta : ℚ) * 100 * (num_cores : ℚ)
  else 0

/-- The per-entry loop of `proc_list_update` (proc.c lines 233-286):
walk the numeric entries, stopping once the list holds MAX_PROCESSES
samples; for each PID compute its delta against the history (only for
PIDs below 131072), unconditionally overwrite that history slot, and
append the sample.  Returns the built list and the final history. -/
def build_procs (env : UpdateEnv) (system_delta : Nat) (num_cores : Int) :
    List Nat → (Nat → Nat) → Nat → List proc_info_t × (Nat → Nat)
  | [], hist, _ => ([], hist)
  | pid :: rest, hist, count =>
    if count ≥ MAX_PROCESSES then ([], hist)
    else
      let current_proc_time := env.proc_time pid
      let proc_delta :=
        if pid < 131072 then proc_delta_of (hist pid) current_proc_time else 0
      let hist1 :=
        if pid < 131072 then Function.update hist pid current_proc_time else hist
      let info : proc_info_t :=
        { pid := (pid : Int), name := env.proc_name pid,
          user := env.proc_user pid, memory := env.proc_memory pid,
          cpu_usage := cpu_percent_of proc_delta system_delta num_cores }
      let r := build_procs env system_delta num_cores rest hist1 (count + 1)
      (info :: r.1, r.2)

/-- `proc_list_update` (proc.c lines 209-291).  Reads the system time
first, derives the system delta, clamps the core count to at least 1,
and returns early — leaving every piece of state untouched — only when
the enumeration root cannot be opened.  Otherwise it rebuilds the list
and history and finally stores the current system time. -/
def proc_list_update (env : UpdateEnv) (st : ProcState) : ProcState :=
  let current_system_time := get_system_time env
  let system_delta := system_delta_of st.prev_system_time current_system_time
  let num_cores := if env.num_cores < 1 then (1 : Int) else env.num_cores
  if env.dir_ok then
    let r := build_procs env system_delta num_cores env.entries st.history 0
    { history := r.2, prev_system_time := current_system_time, plist := r.1 }
  else st

theorem cpu_percent_of_nonneg (d sd : Nat) (nc : Int) (h : 1 ≤ nc) :
    0 ≤ cpu_percent_of d sd nc := by
  unfold cpu_percent_of
  split
  · have h1 : (0 : ℚ) ≤ (d : ℚ) / (sd : ℚ) :=
      div_nonneg (Nat.cast_nonneg d) (Nat.cast_nonneg sd)
    have h2 : (0 : ℚ) ≤ (nc : ℚ) := by exact_mod_cast le_trans zero_le_one h
    have h3 : (0 : ℚ) ≤ (d : ℚ) / (sd : ℚ) * 100 := by linarith
    exact mul_nonneg h3 h2
  · exact le_refl 0

theorem build_procs_cpu_nonneg (env : UpdateEnv) (sd : Nat) (nc : Int)
    (hnc : 1 ≤ nc) (entries : List Nat) (hist : Nat → Nat) (count : Nat) :
    ∀ p ∈ (build_procs env sd nc entries hist count).1, 0 ≤ p.cpu_usage := by
  induction entries generalizing hist count with
  | nil =>
    intro p hp
    simp [build_procs] at hp
  | cons pid rest ih =>
    intro p hp
    by_cases hc : count ≥ MAX_PROCESSES
    · simp [build_procs, hc] at hp
    · simp only [build_procs, if_neg hc] at hp
      rcases List.mem_cons.mp hp with hp | hp
      · rw [hp]
        exact cpu_percent_of_nonneg _ _ _ hnc
      · exact ih _ _ p hp

theorem cpu_percent_of_zero (sd : Nat) (nc : Int) :
    cpu_percent_of 0 sd nc = 0 := by
  unfold cpu_percent_of
  split <;> simp

/-- C1: the CPU estimator never reports a negative percentage — every
sample appended by `proc_list_update` carries `0 ≤ cpu_usage` — and the
process delta is `current - history` exactly when a nonzero history
entry exists for the PID and current ≥ history; in every other case
(no/zero history, or current below history as under PID reuse) the
delta is 0 and the resulting percentage is exactly 0. -/
theorem claim_C1_cpu_estimator :
    (∀ histEntry cur system_delta num_cores,
      (1 ≤ num_cores →
        0 ≤ cpu_percent_of (proc_delta_of histEntry cur) system_delta num_cores) ∧
      (histEntry > 0 → cur ≥ histEntry →
        proc_delta_of histEntry cur = cur - histEntry) ∧
      (¬ (histEntry > 0 ∧ cur ≥ histEntry) →
        proc_delta_of histEntry cur = 0 ∧
        cpu_percent_of (proc_delta_of histEntry cur) system_delta num_cores = 0)) ∧
    (∀ (env : UpdateEnv) (st : ProcState), env.dir_ok = true →
      ∀ p ∈ (proc_list_update env st).plist, 0 ≤ p.cpu_usage) := by
  constructor
  · intro histEntry cur sd nc
    refine ⟨?_, ?_, ?_⟩
    · intro h
      exact cpu_percent_of_nonneg _ _ _ h
    · intro h1 h2
      simp [proc_delta_of, h1, h2]
    · intro h
      have hz : proc_delta_of histEntry cur = 0 := by
        simp [proc_delta_of, h]
      exact ⟨hz, by rw [hz]; exact cpu_percent_of_zero sd nc⟩
  · intro env st hdir p hp
    have hnc : (1 : Int) ≤ (if env.num_cores < 1 then (1 : Int) else env.num_cores) := by
      split <;> omega
    simp only [proc_list_update, hdir, if_true] at hp
    exact build_procs_cpu_nonneg env _ _ hnc env.entries st.history 0 p hp

/-- Witness for C1 at concrete inputs: history 100, current 150 gives
delta 50; and with no history (entry 0) the delta and percentage are 0. -/
theorem claim_C1_witness :
    proc_delta_of 100 150 = 150 - 100 ∧
    (proc_delta_of 0 77 = 0 ∧ cpu_percent_of (proc_delta_of 0 77) 1000 4 = 0) :=
  ⟨(claim_C1_cpu_estimator.1 100 150 0 1).2.1 (by decide) (by decide),
   (claim_C1_cpu_estimator.1 0 77 1000 4).2.2 (by decide)⟩

/-- C2 fails as stated: an unreadable system aggregate does NOT skip
the refresh.  At this concrete input /proc/stat is unreadable
(`sys_readable = false`) while the enumeration root opens fine, and the
update still runs: the stored previous system time changes from 100 to
0, so the state is not left unchanged. -/
theorem claim_C2_counterexample :
    proc_list_update
      { sys_readable := false, sys_ticks := 777, dir_ok := true, entries := [],
        proc_time := fun _ => 0, proc_name := fun _ => [],
        proc_user := fun _ => [], proc_memory := fun _ => 0, num_cores := 1 }
      { history := fun _ => 0, prev_system_time := 100, plist := [] }
      ≠ { history := fun _ => 0, prev_system_time := 100, plist := [] } := by
  intro h
  have h2 : (0 : Nat) = 100 := congrArg ProcState.prev_system_time h
  exact absurd h2 (by decide)

/-- C2 amended: only a missing enumeration root skips the refresh —
then the process list, the per-PID history and the stored previous
system time are all left exactly as they were.  An unreadable system
aggregate does not skip anything: `get_system_time` reports 0 and the
update proceeds, rebuilding the list and overwriting the stored
previous system time with 0. -/
theorem claim_C2_amended_refresh_skip (env : UpdateEnv) (st : ProcState) :
    (env.dir_ok = false → proc_list_update env st = st) ∧
    (env.dir_ok = true → env.sys_readable = false →
      (proc_list_update env st).prev_system_time = 0) := by
  constructor
  · intro h
    simp [proc_list_update, h]
  · intro hdir hsys
    simp [proc_list_update, hdir, get_system_time, hsys]

/-- Witness for C2 at a concrete input: with the enumeration root
missing, the update returns the state unchanged. -/
theorem claim_C2_witness :
    proc_list_update
      { sys_readable := true, sys_ticks := 777, dir_ok := false, entries := [3],
        proc_time := fun _ => 9, proc_name := fun _ => [],
        proc_user := fun _ => [], proc_memory := fun _ => 0, num_cores := 1 }
      { history := fun _ => 4, prev_system_time := 100, plist := [] }
      = { history := fun _ => 4, prev_system_time := 100, plist := [] } :=
  (claim_C2_amended_refresh_skip
    { sys_readable := true, sys_ticks := 777, dir_ok := false, entries := [3],
      proc_time := fun _ => 9, proc_name := fun _ => [],
      proc_user := fun _ => [], proc_memory := fun _ => 0, num_cores := 1 }
    { history := fun _ => 4, prev_system_time := 100, plist := [] }).1 rfl

/-- C7 fails as stated: when the current system ticks are below the
stored previous ones (here 5 < 10), the delta is not clamped to 0 — the
unsigned C subtraction wraps modulo 2^64 to a huge positive value. -/
theorem claim_C7_counterexample :
    5 < 10 ∧ system_delta_of 10 5 = 2 ^ 64 - 5 ∧ system_delta_of 10 5 ≠ 0 := by
  refine ⟨by decide, ?_, ?_⟩
  · simp only [system_delta_of, usub64]
    norm_num
  · simp only [system_delta_of, usub64]
    norm_num

/-- C7 amended: the system delta is computed as a difference only when
a previous system value exists (`prev > 0`); on the first tick ever it
is 0.  Being unsigned it is never negative, and when current ≥ previous
(both below 2^64) it equals the exact difference — but when current <
previous it wraps modulo 2^64 to `2^64 - (previous - current)` instead
of being clamped to 0. -/
theorem claim_C7_amended_system_delta (prev cur : Nat) :
    (prev = 0 → system_delta_of prev cur = 0) ∧
    (prev > 0 → system_delta_of prev cur = usub64 cur prev) ∧
    (prev > 0 → cur ≥ prev → cur < 2 ^ 64 → system_delta_of prev cur = cur - prev) ∧
    (prev > 0 → cur < prev → prev < 2 ^ 64 →
      system_delta_of prev cur = 2 ^ 64 - (prev - cur)) := by
  refine ⟨?_, ?_, ?_, ?_⟩
  · intro h
    simp [system_delta_of, h]
  · intro h
    simp [system_delta_of, h]
  · intro h1 h2 h3
    simp only [system_delta_of, if_pos h1, usub64]
    omega
  · intro h1 h2 h3
    simp only [system_delta_of, if_pos h1, usub64]
    omega

/-- Witness for C7 at concrete inputs: first tick (prev 0) gives 0;
prev 1000 and current 1100 give delta 100. -/
theorem claim_C7_witness :
    system_delta_of 0 999 = 0 ∧ system_delta_of 1000 1100 = 100 :=
  ⟨(claim_C7_amended_system_delta 0 999).1 rfl,
   by
    have h := (claim_C7_amended_system_delta 1000 1100).2.2.1
      (by decide) (by decide) (by norm_num)
    simpa using h⟩

theorem build_procs_history_stable (env : UpdateEnv) (sd : Nat) (nc : Int)
    (pid : Nat) :
    ∀ (entries : List Nat) (hist : Nat → Nat) (count : Nat),
      hist pid = env.proc_time pid →
      (build_procs env sd nc entries hist count).2 pid = env.proc_time pid := by
  intro entries
  induction entries with
  | nil =>
    intro hist count h
    simpa [build_procs] using h
  | cons q rest ih =>
    intro hist count h
    by_cases hc : count ≥ MAX_PROCESSES
    · simpa [build_procs, hc] using h
    · simp only [build_procs, if_neg hc]
      apply ih
      by_cases hq : q < 131072
      · by_cases hqp : q = pid
        · subst hqp
          simp [hq, Function.update_same]
        · simp [hq, Function.update_noteq (fun hh => hqp hh.symm)]
          exact h
      · simpa [hq] using h

theorem build_procs_history_overwrite (env : UpdateEnv) (sd : Nat) (nc : Int)
    (pid : Nat) (hceil : pid < 131072) :
    ∀ (entries : List Nat) (hist : Nat → Nat) (count : Nat),
      pid ∈ entries.take (MAX_PROCESSES - count) →
      (build_procs env sd nc entries hist count).2 pid = env.proc_time pid := by
  intro entries
  induction entries with
  | nil =>
    intro hist count hmem
    simp at hmem
  | cons q rest ih =>
    intro hist count hmem
    by_cases hc : count ≥ MAX_PROCESSES
    · have hz : MAX_PROCESSES - count = 0 := by omega
      rw [hz] at hmem
      simp at hmem
    · have hpos : MAX_PROCESSES - count = (MAX_PROCESSES - (count + 1)) + 1 := by
        have : count < MAX_PROCESSES := lt_of_not_ge hc
        omega
      rw [hpos, List.take_succ_cons] at hmem
      simp only [build_procs, if_neg hc]
      rcases List.mem_cons.mp hmem with hqp | hmem2
      · subst hqp
        apply build_procs_history_stable
        simp [hceil, Function.update_same]
      · exact ih _ _ hmem2

/-- C8 fails as stated: a PID at or above the history ceiling 131072 is
enumerated and sampled, yet its history entry is NOT overwritten.  At
this concrete input PID 131072 currently shows 7 cumulative ticks, but
after the refresh its history slot still holds the old value 5. -/
theorem claim_C8_counterexample :
    (proc_list_update
      { sys_readable := true, sys_ticks := 50, dir_ok := true,
        entries := [131072], proc_time := fun _ => 7,
        proc_name := fun _ => [], proc_user := fun _ => [],
        proc_memory := fun _ => 0, num_cores := 1 }
      { history := fun _ => 5, prev_system_time := 0, plist := [] }).history 131072
      = 5 ∧ (5 : Nat) ≠ 7 := by
  constructor
  · rfl
  · decide

/-- C8 amended: after a refresh, for every PID that was enumerated and
sampled during that tick (one of the first MAX_PROCESSES numeric
entries) AND lies below the history ceiling 131072, the history entry
equals that process's current cumulative ticks — overwritten
unconditionally, whether or not a delta was computed.  PIDs at or above
the ceiling are sampled but never historized. -/
theorem claim_C8_amended_history_overwrite (env : UpdateEnv) (st : ProcState)
    (pid : Nat) (hdir : env.dir_ok = true)
    (hmem : pid ∈ env.entries.take MAX_PROCESSES) (hceil : pid < 131072) :
    (proc_list_update env st).history pid = env.proc_time pid := by
  simp only [proc_list_update, hdir, if_true]
  exact build_procs_history_overwrite env _ _ pid hceil env.entries st.history 0
    (by simpa using hmem)

/-- Witness for C8 at a concrete input: PID 5 (below the ceiling,
within the cap) gets its history slot set to its current 42 ticks. -/
theorem claim_C8_witness :
    (proc_list_update
      { sys_readable := true, sys_ticks := 10, dir_ok := true, entries := [5],
        proc_time := fun _ => 42, proc_name := fun _ => [],
        proc_user := fun _ => [], proc_memory := fun _ => 0, num_cores := 1 }
      { history := fun _ => 0, prev_system_time := 0, plist := [] }).history 5
      = 42 :=
  claim_C8_amended_history_overwrite
    { sys_readable := true, sys_ticks := 10, dir_ok := true, entries := [5],
      proc_time := fun _ => 42, proc_name := fun _ => [],
      proc_user := fun _ => [], proc_memory := fun _ => 0, num_cores := 1 }
    { history := fun _ => 0, prev_system_time := 0, plist := [] }
    5 rfl (by decide) (by decide)

/-! ## Main loop (main.c) -/

/-- Which pipeline steps a single main-loop iteration executed. -/
structure TickTrace where
  refresh_ran : Bool
  filter_ran : Bool
  sort_ran : Bool
deriving DecidableEq

/-- The pipeline portion of one main-loop iteration (main.c lines
42-53): the refresh runs only when neither `search_mode` nor
`kill_confirm_mode` is set, after which the filter and sort steps run
unconditionally, producing the visible list from the (possibly stale)
full snapshot.  Returns the full-snapshot state, the visible list, and
the trace of executed steps. -/
def loop_pipeline (search_mode kill_confirm_mode : Bool) (env : UpdateEnv)
    (st : ProcState) (filter_str : List Char) (key : SortType) :
    ProcState × List proc_info_t × TickTrace :=
  let st1 := if !search_mode && !kill_confirm_mode
             then proc_list_update env st else st
  let visible := proc_list_filter st1.plist filter_str
  let visible1 := sort_processes visible key
  (st1, visible1,
    { refresh_ran := !search_mode && !kill_confirm_mode,
      filter_ran := true, sort_ran := true })

/-- C3 fails as stated: in Search mode (`search_mode = true`) the
filter and sort steps still execute — the claim demanded that none of
refresh/filter/sort run.  Concretely, the trace of an iteration in
Search mode is ⟨false, true, true⟩, not ⟨false, false, false⟩. -/
theorem claim_C3_counterexample :
    (loop_pipeline true false
      { sys_readable := true, sys_ticks := 0, dir_ok := true, entries := [],
        proc_time := fun _ => 0, proc_name := fun _ => [],
        proc_user := fun _ => [], proc_memory := fun _ => 0, num_cores := 1 }
      { history := fun _ => 0, prev_system_time := 0, plist := [] }
      [] SortType.SORT_PID).2.2
      = { refresh_ran := false, filter_ran := true, sort_ran := true } ∧
    ({ refresh_ran := false, filter_ran := true, sort_ran := true } : TickTrace)
      ≠ { refresh_ran := false, filter_ran := false, sort_ran := false } := by
  exact ⟨rfl, by decide⟩

/-- C3 amended: while in Search or ConfirmKill only the refresh step is
skipped — the full snapshot is left unchanged — but the filter and sort
steps still execute once per tick, recomputing the visible list from
the stale snapshot; in Normal mode refresh, filter and sort each
execute exactly once per tick. -/
theorem claim_C3_amended_pipeline_gating (sm km : Bool) (env : UpdateEnv)
    (st : ProcState) (fs : List Char) (key : SortType) :
    (sm = true ∨ km = true →
      (loop_pipeline sm km env st fs key).1 = st ∧
      (loop_pipeline sm km env st fs key).2.2
        = { refresh_ran := false, filter_ran := true, sort_ran := true }) ∧
    (sm = false → km = false →
      (loop_pipeline sm km env st fs key).1 = proc_list_update env st ∧
      (loop_pipeline sm km env st fs key).2.2
        = { refresh_ran := true, filter_ran := true, sort_ran := true }) ∧
    (loop_pipeline sm km env st fs key).2.1
      = sort_processes (proc_list_filter
          (loop_pipeline sm km env st fs key).1.plist fs) key := by
  refine ⟨?_, ?_, ?_⟩
  · intro h
    rcases h with h | h <;> subst h <;> constructor <;>
      simp [loop_pipeline]
  · intro hsm hkm
    subst hsm; subst hkm
    constructor <;> simp [loop_pipeline]
  · cases sm <;> cases km <;> simp [loop_pipeline]

/-- Witness for C3 at a concrete input: in Search mode the snapshot
state is untouched and the trace is ⟨false, true, true⟩. -/
theorem claim_C3_witness :
    (loop_pipeline true false
      { sys_readable := true, sys_ticks := 3, dir_ok := true, entries := [],
        proc_time := fun _ => 0, proc_name := fun _ => [],
        proc_user := fun _ => [], proc_memory := fun _ => 0, num_cores := 1 }
      { history := fun _ => 0, prev_system_time := 9, plist := [] }
      [] SortType.SORT_PID).1
      = { history := fun _ => 0, prev_system_time := 9, plist := [] } :=
  ((claim_C3_amended_pipeline_gating true false
    { sys_readable := true, sys_ticks := 3, dir_ok := true, entries := [],
      proc_time := fun _ => 0, proc_name := fun _ => [],
      proc_user := fun _ => [], proc_memory := fun _ => 0, num_cores := 1 }
    { history := fun _ => 0, prev_system_time := 9, plist := [] }
    [] SortType.SORT_PID).1 (Or.inl rfl)).1

/-- The selection bounds check of the main loop (main.c lines 56-60):
zero the selection when the visible list is empty, pull it back to
`count - 1` when it points past the end, and otherwise leave it. -/
def clamp_selection (selected count : Int) : Int :=
  if count = 0 then 0
  else if selected ≥ count then count - 1
  else selected

/-- C9: after every refresh-filter-sort pass the selection index is
re-clamped into [0, count-1] of the visible list, or to 0 when the
visible count is 0; in particular when a refresh shrinks the count from
N to M < N while the selection sat at N-1, the clamped selection is
M-1 (or 0 when M = 0).  The hypothesis `0 ≤ selected` is the loop
invariant maintained by the navigation handlers (selection never goes
negative). -/
theorem claim_C9_selection_clamp (selected n m : Int)
    (hsel : 0 ≤ selected) (hm : 0 ≤ m) :
    (m = 0 → clamp_selection selected m = 0) ∧
    (0 < m → 0 ≤ clamp_selection selected m ∧ clamp_selection selected m ≤ m - 1) ∧
    (selected = n - 1 → m < n →
      clamp_selection selected m = if m = 0 then 0 else m - 1) := by
  unfold clamp_selection
  refine ⟨?_, ?_, ?_⟩
  · intro h
    simp [h]
  · intro h
    split_ifs <;> omega
  · intro h1 h2
    split_ifs <;> omega

/-- Witness for C9 at a concrete input: a refresh shrinking the count
from 5 to 3 with the selection at 4 pulls it back to 2. -/
theorem claim_C9_witness :
    clamp_selection 4 3 = if (3 : Int) = 0 then 0 else 3 - 1 :=
  (claim_C9_selection_clamp 4 5 3 (by decide) (by decide)).2.2 rfl (by decide)

/-- The ConfirmKill key handler (main.c lines 77-93).  Inputs: the key
code read (`ch`, as returned by getch), the visible-list count and the
selected sample's PID.  Output: the PID a SIGTERM is sent to (if any)
and the `kill_confirm_mode` flag afterwards.  Key codes: 'y' = 121,
'Y' = 89, 'n' = 110, 'N' = 78, ESC = 27. -/
def confirm_kill_step (ch : Int) (visible_count : Nat) (selected_pid : Int) :
    Option Int × Bool :=
  if ch = 121 ∨ ch = 89 then
    (if visible_count > 0 then some selected_pid else none, false)
  else if ch = 110 ∨ ch = 78 ∨ ch = 27 then (none, false)
  else (none, true)

/-- C10: in ConfirmKill mode, pressing 'y' or 'Y' sends the termination
signal to the selected PID only when the visible list is non-empty; on
an empty visible list no signal is sent; and in both cases the mode
flag drops back to Normal. -/
theorem claim_C10_confirm_kill (ch : Int) (cnt : Nat) (pid : Int)
    (h : ch = 121 ∨ ch = 89) :
    (cnt > 0 → (confirm_kill_step ch cnt pid).1 = some pid) ∧
    (cnt = 0 → (confirm_kill_step ch cnt pid).1 = none) ∧
    (confirm_kill_step ch cnt pid).2 = false := by
  refine ⟨?_, ?_, ?_⟩
  · intro hcnt
    simp [confirm_kill_step, h, hcnt]
  · intro hcnt
    simp [confirm_kill_step, h, hcnt]
  · simp [confirm_kill_step, h]

/-- Witness for C10 at concrete inputs: 'y' with a non-empty visible
list kills the selected PID 42; 'Y' with an empty list kills nothing;
both leave ConfirmKill. -/
theorem claim_C10_witness :
    (confirm_kill_step 121 3 42).1 = some 42 ∧
    (confirm_kill_step 89 0 42).1 = none ∧
    (confirm_kill_step 89 0 42).2 = false :=
  ⟨(claim_C10_confirm_kill 121 3 42 (Or.inl rfl)).1 (by decide),
   (claim_C10_confirm_kill 89 0 42 (Or.inr rfl)).2.1 rfl,
   (claim_C10_confirm_kill 89 0 42 (Or.inr rfl)).2.2⟩

/-! ## get_process_time (proc.c lines 145-183) -/

/-- C `isdigit` on a character's byte value. -/
def c_isdigit (c : Char) : Bool := decide (48 ≤ c.toNat ∧ c.toNat ≤ 57)

/-- The whitespace class `sscanf` skips before a numeric conversion
(space, tab, newline are the ones that can occur in a stat line). -/
def c_isspace (c : Char) : Bool :=
  decide (c.toNat = 32 ∨ c.toNat = 9 ∨ c.toNat = 10)

/-- Skip leading whitespace, as each `sscanf` numeric directive does. -/
def skip_ws (s : List Char) : List Char := s.dropWhile c_isspace

/-- The numeric value of a run of decimal digit characters, most
significant first. -/
def nat_from_digits (l : List Char) : Nat :=
  l.foldl (fun a c => a * 10 + (c.toNat - 48)) 0

/-- One numeric conversion of `sscanf` (`%d`/`%u`/`%llu`): skip
whitespace, accept an optional minus sign, then a nonempty digit run;
return the value and the unconsumed remainder, or `none` when the
conversion fails (which makes `sscanf` stop assigning). -/
def scan_int (s : List Char) : Option (Int × List Char) :=
  let s1 := skip_ws s
  if s1.head? = some '-' then
    let s2 := s1.tail
    let ds := s2.takeWhile c_isdigit
    if ds.isEmpty then none
    else some (-(nat_from_digits ds : Int), s2.dropWhile c_isdigit)
  else
    let ds := s1.takeWhile c_isdigit
    if ds.isEmpty then none
    else some ((nat_from_digits ds : Int), s1.dropWhile c_isdigit)

/-- Run `n` numeric conversions, discarding their values (the stat
fields 4-13, which the C code reads into throwaway variables). -/
def scan_skip : Nat → List Char → Option (List Char)
  | 0, s => some s
  | n + 1, s =>
    match scan_int s with
    | none => none
    | some (_, rest) => scan_skip n rest

/-- Wrap an integer into the C `unsigned long long` range. -/
def wrap64 (n : Int) : Nat := (n % 2 ^ 64).toNat

/-- The tail of the `sscanf` call in `get_process_time` (proc.c lines
174-178), after the `%c` state field: skip ten numeric fields
(stat fields 4-13), then read `utime` (field 14) and `stime` (field
15), and return `utime + stime`.  `utime`/`stime` keep their initial 0
when their conversion never succeeds, exactly as the C locals do. -/
def parse_stat_fields (s : List Char) : Nat :=
  match scan_skip 10 s with
  | none => 0
  | some r1 =>
    match scan_int r1 with
    | none => 0
    | some (u, r2) =>
      match scan_int r2 with
      | none => wrap64 u
      | some (st, _) => wrap64 (u + st)

/-- `strrchr(buffer, ')')` (proc.c line 162): the characters after the
LAST closing parenthesis of the line, or `none` when the line has no
closing parenthesis (in which case the C code returns 0). -/
def after_last_rpar (l : List Char) : Option (List Char) :=
  if ')' ∈ l
  then some ((l.reverse.takeWhile (fun c => decide (c ≠ ')'))).reverse)
  else none

/-- `get_process_time` (proc.c lines 145-183), applied to the stat
line already read.  The parse resumes at `rpar + 2`, i.e. it drops one
character after the last closing parenthesis (the separating space),
consumes the single state character with `%c`, and hands the rest to
the positional numeric parse.  An empty remainder at any of those
points makes the conversions fail and yields 0. -/
def get_process_time (line : List Char) : Nat :=
  match after_last_rpar line with
  | none => 0
  | some suffix =>
    match suffix with
    | [] => 0
    | _ :: token =>
      match token with
      | [] => 0
      | _state :: rest => parse_stat_fields rest

/-! ### Rendering a well-formed stat line -/

/-- The decimal character of a digit value. -/
def digit_char : Nat → Char
  | 0 => '0'
  | 1 => '1'
  | 2 => '2'
  | 3 => '3'
  | 4 => '4'
  | 5 => '5'
  | 6 => '6'
  | 7 => '7'
  | 8 => '8'
  | 9 => '9'
  | _ => '0'

/-- The decimal rendering of a natural number, as the kernel prints it
in /proc (most significant digit first, a single 0 for zero). -/
def nat_digits (n : Nat) : List Char :=
  if n = 0 then ['0'] else ((Nat.digits 10 n).map digit_char).reverse

/-- Render a run of numeric fields, each preceded by one space, in
front of `tail`. -/
def render_nats (ns : List Nat) (tail : List Char) : List Char :=
  ns.foldr (fun n acc => ' ' :: (nat_digits n ++ acc)) tail

/-- A well-formed /proc/[pid]/stat line: the PID, the process name in
parentheses (the name itself may contain ANY characters, including
spaces and closing parentheses), the one-character state, then the
numeric fields 4 onward, space-separated, with `fields` the fields up
to a chosen point and `tail` whatever follows. -/
def mk_stat_line (pid : Nat) (name : List Char) (state : Char)
    (fields : List Nat) (tail : List Char) : List Char :=
  nat_digits pid ++ ' ' :: '(' ::
    (name ++ ')' :: ' ' :: state :: render_nats fields (' ' :: tail))

theorem digit_char_toNat (d : Nat) (h : d < 10) :
    (digit_char d).toNat = 48 + d := by
  interval_cases d <;> rfl

theorem nat_digits_bounds (n : Nat) :
    ∀ c ∈ nat_digits n, 48 ≤ c.toNat ∧ c.toNat ≤ 57 := by
  intro c hc
  unfold nat_digits at hc
  split at hc
  · rcases List.mem_singleton.mp hc with rfl
    decide
  · rw [List.mem_reverse, List.mem_map] at hc
    obtain ⟨d, hd, rfl⟩ := hc
    have hlt : d < 10 := Nat.digits_lt_base (by norm_num) hd
    rw [digit_char_toNat d hlt]
    omega

theorem nat_digits_ne_nil (n : Nat) : nat_digits n ≠ [] := by
  unfold nat_digits
  split
  · simp
  · simp only [ne_eq, List.reverse_eq_nil_iff, List.map_eq_nil_iff]
    exact Nat.digits_ne_nil_iff_ne_zero.mpr (by assumption)

theorem takeWhile_all_append (p : Char → Bool) (X Y : List Char)
    (hX : ∀ c ∈ X, p c = true)
    (hY : ∀ c, Y.head? = some c → p c = false) :
    (X ++ Y).takeWhile p = X := by
  induction X with
  | nil =>
    cases Y with
    | nil => rfl
    | cons y ys =>
      simp [List.takeWhile_cons, hY y rfl]
  | cons x X2 ih =>
    have hx : p x = true := hX x (by simp)
    simp only [List.cons_append, List.takeWhile_cons, hx, if_true]
    rw [ih (fun c hc => hX c (by simp [hc]))]

theorem dropWhile_all_append (p : Char → Bool) (X Y : List Char)
    (hX : ∀ c ∈ X, p c = true)
    (hY : ∀ c, Y.head? = some c → p c = false) :
    (X ++ Y).dropWhile p = Y := by
  induction X with
  | nil =>
    cases Y with
    | nil => rfl
    | cons y ys =>
      simp [List.dropWhile_cons, hY y rfl]
  | cons x X2 ih =>
    have hx : p x = true := hX x (by simp)
    simp only [List.cons_append, List.dropWhile_cons, hx, if_true]
    exact ih (fun c hc => hX c (by simp [hc]))

theorem foldl_digits_map (L : List Nat) (hL : ∀ d ∈ L, d < 10) :
    ∀ acc : Nat,
      List.foldl (fun a c => a * 10 + (c.toNat - 48)) acc (L.map digit_char)
        = List.foldl (fun a d => a * 10 + d) acc L := by
  induction L with
  | nil => intro acc; rfl
  | cons d L2 ih =>
    intro acc
    have hd : d < 10 := hL d (by simp)
    simp only [List.map_cons, List.foldl_cons, digit_char_toNat d hd]
    have : 48 + d - 48 = d := by omega
    rw [this]
    exact ih (fun x hx => hL x (by simp [hx])) _

theorem foldl_reverse_ofDigits (L : List Nat) :
    List.foldl (fun a d => a * 10 + d) 0 L.reverse = Nat.ofDigits 10 L := by
  induction L with
  | nil => rfl
  | cons d L2 ih =>
    rw [List.reverse_cons, List.foldl_append, ih, Nat.ofDigits_cons]
    simp only [List.foldl_cons, List.foldl_nil]
    omega

theorem nat_from_nat_digits (n : Nat) :
    nat_from_digits (nat_digits n) = n := by
  by_cases h : n = 0
  · subst h
    rfl
  · unfold nat_digits nat_from_digits
    rw [if_neg h, ← List.map_reverse,
      foldl_digits_map _ (fun d hd =>
        Nat.digits_lt_base (by norm_num) (List.mem_reverse.mp hd)),
      foldl_reverse_ofDigits, Nat.ofDigits_digits]

theorem c_isspace_of_digit (c : Char) (h : 48 ≤ c.toNat ∧ c.toNat ≤ 57) :
    c_isspace c = false := by
  simp only [c_isspace, decide_eq_false_iff_not]
  omega

theorem c_isdigit_of_bounds (c : Char) (h : 48 ≤ c.toNat ∧ c.toNat ≤ 57) :
    c_isdigit c = true := by
  simp only [c_isdigit, decide_eq_true_eq]
  exact h

theorem scan_int_digits (n : Nat) (rest : List Char)
    (hrest : ∀ c, rest.head? = some c → c_isdigit c = false) :
    scan_int (nat_digits n ++ rest) = some ((n : Int), rest) := by
  obtain ⟨d, ds, hds⟩ : ∃ d ds, nat_digits n = d :: ds := by
    cases hnd : nat_digits n with
    | nil => exact absurd hnd (nat_digits_ne_nil n)
    | cons d ds => exact ⟨d, ds, rfl⟩
  have hd : 48 ≤ d.toNat ∧ d.toNat ≤ 57 :=
    nat_digits_bounds n d (by rw [hds]; simp)
  have hskip : skip_ws (nat_digits n ++ rest) = nat_digits n ++ rest := by
    rw [hds, skip_ws, List.cons_append, List.dropWhile_cons,
      c_isspace_of_digit d hd]
    simp
  have hhead : (nat_digits n ++ rest).head? = some d := by
    rw [hds]; rfl
  have hnotminus : ¬ (nat_digits n ++ rest).head? = some '-' := by
    rw [hhead]
    intro hcontra
    have : d = '-' := by simpa using hcontra
    subst this
    revert hd
    decide
  have htake : (nat_digits n ++ rest).takeWhile c_isdigit = nat_digits n :=
    takeWhile_all_append c_isdigit (nat_digits n) rest
      (fun c hc => c_isdigit_of_bounds c (nat_digits_bounds n c hc)) hrest
  have hdrop : (nat_digits n ++ rest).dropWhile c_isdigit = rest :=
    dropWhile_all_append c_isdigit (nat_digits n) rest
      (fun c hc => c_isdigit_of_bounds c (nat_digits_bounds n c hc)) hrest
  have hne : (nat_digits n).isEmpty = false := by
    rw [hds]; rfl
  simp only [scan_int, hskip, hnotminus, if_false, htake, hdrop, hne,
    Bool.false_eq_true, nat_from_nat_digits]

theorem skip_ws_space (s : List Char) : skip_ws (' ' :: s) = skip_ws s := by
  rw [skip_ws, List.dropWhile_cons, if_pos (by decide : c_isspace ' ' = true)]
  rfl

theorem scan_int_space (s : List Char) : scan_int (' ' :: s) = scan_int s := by
  simp only [scan_int, skip_ws_space]

theorem render_nats_cons (n : Nat) (ns : List Nat) (tail : List Char) :
    render_nats (n :: ns) tail = ' ' :: (nat_digits n ++ render_nats ns tail) :=
  rfl

theorem render_nats_head_not_digit (ns : List Nat) (tail : List Char)
    (htail : ∀ c, tail.head? = some c → c_isdigit c = false) :
    ∀ c, (render_nats ns tail).head? = some c → c_isdigit c = false := by
  cases ns with
  | nil => exact htail
  | cons n ns2 =>
    intro c hc
    rw [render_nats_cons] at hc
    have : c = ' ' := by simpa using hc.symm
    subst this
    decide

theorem scan_skip_render (ns : List Nat) (tail : List Char)
    (htail : ∀ c, tail.head? = some c → c_isdigit c = false) :
    scan_skip ns.length (render_nats ns tail) = some tail := by
  induction ns with
  | nil => rfl
  | cons n ns2 ih =>
    rw [render_nats_cons, List.length_cons]
    simp only [scan_skip, scan_int_space,
      scan_int_digits n (render_nats ns2 tail)
        (render_nats_head_not_digit ns2 tail htail)]
    exact ih

theorem rpar_not_mem_render (ns : List Nat) (tail : List Char)
    (htail : ')' ∉ tail) : ')' ∉ render_nats ns tail := by
  induction ns with
  | nil => exact htail
  | cons n ns2 ih =>
    rw [render_nats_cons]
    intro hmem
    rcases List.mem_cons.mp hmem with h | h
    · exact absurd h (by decide)
    · rcases List.mem_append.mp h with h | h
      · have := nat_digits_bounds n _ h
        revert this
        decide
      · exact ih h

theorem after_last_rpar_append (a b : List Char) (hb : ')' ∉ b) :
    after_last_rpar (a ++ ')' :: b) = some b := by
  have hmem : ')' ∈ a ++ ')' :: b := List.mem_append_right a (by simp)
  have hrev : (a ++ ')' :: b).reverse = b.reverse ++ ')' :: a.reverse := by
    rw [List.reverse_append, List.reverse_cons, List.append_assoc]
    rfl
  have htake : (b.reverse ++ ')' :: a.reverse).takeWhile
      (fun c => decide (c ≠ ')')) = b.reverse := by
    apply takeWhile_all_append
    · intro c hc
      simp only [decide_eq_true_eq]
      intro hcontra
      subst hcontra
      exact hb (List.mem_reverse.mp hc)
    · intro c hc
      have : c = ')' := by simpa using hc.symm
      subst this
      simp
  rw [after_last_rpar, if_pos hmem, hrev, htake, List.reverse_reverse]

/-- C6: the per-process CPU tick parser skips the name field by
locating the LAST closing parenthesis of the stat line and resuming
positional parsing after it, and returns the sum of the user-mode
(14th) and kernel-mode (15th) fields — correct for EVERY process name,
including names containing spaces or closing parentheses.  The
hypotheses only state well-formedness of the part of the line after
the name: the one-character state is not a closing parenthesis, the
trailing fields contain none either, and the tick sum fits in the
C unsigned 64-bit result. -/
theorem claim_C6_stat_time_sum (pid : Nat) (name : List Char) (state : Char)
    (ppid pgrp session tty_nr tpgid flags minflt cminflt majflt cmajflt
      utime stime : Nat) (tail : List Char)
    (hstate : state ≠ ')') (htail : ')' ∉ tail)
    (hsum : utime + stime < 2 ^ 64) :
    get_process_time (mk_stat_line pid name state
      [ppid, pgrp, session, tty_nr, tpgid, flags, minflt, cminflt, majflt,
        cmajflt, utime, stime] tail) = utime + stime := by
  have htail2 : ')' ∉ (' ' :: tail) := by
    intro h
    rcases List.mem_cons.mp h with h | h
    · exact absurd h (by decide)
    · exact htail h
  have hB : ')' ∉ (' ' :: state :: render_nats
      [ppid, pgrp, session, tty_nr, tpgid, flags, minflt, cminflt, majflt,
        cmajflt, utime, stime] (' ' :: tail)) := by
    intro h
    rcases List.mem_cons.mp h with h | h
    · exact absurd h (by decide)
    · rcases List.mem_cons.mp h with h | h
      · exact hstate h.symm
      · exact rpar_not_mem_render _ _ htail2 h
  have hline : mk_stat_line pid name state
      [ppid, pgrp, session, tty_nr, tpgid, flags, minflt, cminflt, majflt,
        cmajflt, utime, stime] tail
      = (nat_digits pid ++ ' ' :: '(' :: name) ++ ')' ::
        (' ' :: state :: render_nats
          [ppid, pgrp, session, tty_nr, tpgid, flags, minflt, cminflt,
            majflt, cmajflt, utime, stime] (' ' :: tail)) := by
    simp [mk_stat_line, List.append_assoc]
  have hal := after_last_rpar_append
    (nat_digits pid ++ ' ' :: '(' :: name)
    (' ' :: state :: render_nats
      [ppid, pgrp, session, tty_nr, tpgid, flags, minflt, cminflt, majflt,
        cmajflt, utime, stime] (' ' :: tail)) hB
  rw [hline, get_process_time, hal]
  have hsplit : render_nats
      [ppid, pgrp, session, tty_nr, tpgid, flags, minflt, cminflt, majflt,
        cmajflt, utime, stime] (' ' :: tail)
      = render_nats
          [ppid, pgrp, session, tty_nr, tpgid, flags, minflt, cminflt,
            majflt, cmajflt]
          (render_nats [utime, stime] (' ' :: tail)) := by
    rfl
  have htailnd : ∀ c, (' ' :: tail).head? = some c → c_isdigit c = false := by
    intro c hc
    have : c = ' ' := by simpa using hc.symm
    subst this
    decide
  have hXnd : ∀ c, (render_nats [utime, stime] (' ' :: tail)).head? = some c →
      c_isdigit c = false :=
    render_nats_head_not_digit [utime, stime] (' ' :: tail) htailnd
  have h1 : scan_skip 10
      (render_nats
        [ppid, pgrp, session, tty_nr, tpgid, flags, minflt, cminflt, majflt,
          cmajflt] (render_nats [utime, stime] (' ' :: tail)))
      = some (render_nats [utime, stime] (' ' :: tail)) :=
    scan_skip_render
      [ppid, pgrp, session, tty_nr, tpgid, flags, minflt, cminflt, majflt,
        cmajflt] (render_nats [utime, stime] (' ' :: tail)) hXnd
  have hrest1nd : ∀ c,
      (' ' :: (nat_digits stime ++ (' ' :: tail))).head? = some c →
      c_isdigit c = false := by
    intro c hc
    have : c = ' ' := by simpa using hc.symm
    subst this
    decide
  have h3 : scan_int (render_nats [utime, stime] (' ' :: tail))
      = some ((utime : Int), ' ' :: (nat_digits stime ++ (' ' :: tail))) := by
    have hx : render_nats [utime, stime] (' ' :: tail)
        = ' ' :: (nat_digits utime ++
            (' ' :: (nat_digits stime ++ (' ' :: tail)))) := rfl
    rw [hx, scan_int_space]
    exact scan_int_digits utime _ hrest1nd
  have h4 : scan_int (' ' :: (nat_digits stime ++ (' ' :: tail)))
      = some ((stime : Int), ' ' :: tail) := by
    rw [scan_int_space]
    exact scan_int_digits stime _ htailnd
  rw [hsplit]
  simp only [parse_stat_fields, h1, h3, h4]
  have hmod : ((utime : Int) + stime) % 2 ^ 64 = (utime : Int) + stime := by
    apply Int.emod_eq_of_lt
    · positivity
    · exact_mod_cast hsum
  rw [wrap64, hmod]
  omega

/-- Witness for C6 at a concrete input: the name contains both spaces
and a closing parenthesis, and the parser still returns utime + stime
(300 + 500 = 800). -/
theorem claim_C6_witness :
    get_process_time (mk_stat_line 42
      ['W','e','b',' ','C','o','n',')','x'] 'R'
      [1, 2, 3, 4, 5, 6, 7, 8, 9, 10, 300, 500] []) = 300 + 500 :=
  claim_C6_stat_time_sum 42 ['W','e','b',' ','C','o','n',')','x'] 'R'
    1 2 3 4 5 6 7 8 9 10 300 500 [] (by decide) (by decide) (by decide)
